import Mathlib

/-!
Shallow embedding of the Tetris AI core (`tetris_ai.py`): the shape/rotation
library, the board model (collision, locking, line clearing, column
statistics), the heuristic evaluator and the placement search, together with
theorems checking the specification's claims against these definitions.

Conventions of the embedding:
* a board is a list of rows, each row a list of cells, `0` meaning empty
  (Python stores a 1-based color index in occupied cells);
* Python `for` loops over indices become folds over `List.range`;
* Python list indexing becomes `List.getD` (all reads that actually happen in
  the source are in range, so the default is never observed on well-formed
  inputs);
* in-place mutation becomes explicit state passing;
* the possibly diverging `while` loop of `hard_drop` becomes a fuelled loop
  returning `Option Nat`;
* Python floats are modelled as exact rationals `ℚ`;
* the running best score of the search, initialised to `-inf`, is modelled as
  `WithBot ℚ` initialised to `⊥`.
-/

namespace TetrisAI

/-- `COLS` from the config section. -/
def COLS : Nat := 10

/-- `ROWS` from the config section. -/
def ROWS : Nat := 20

abbrev Cell := Nat

abbrev Board := List (List Cell)

abbrev Shape := List (List Nat)

/-- The seven piece types, in the insertion order of `SHAPES_BASE`. -/
inductive Piece
  | I | O | T | S | Z | J | L
  deriving DecidableEq, Repr

/-- `SHAPES_BASE`: the base matrix of each piece type. -/
def SHAPES_BASE : Piece → Shape
  | .I => [[1,1,1,1]]
  | .O => [[1,1],[1,1]]
  | .T => [[0,1,0],[1,1,1]]
  | .S => [[0,1,1],[1,1,0]]
  | .Z => [[1,1,0],[0,1,1]]
  | .J => [[1,0,0],[1,1,1]]
  | .L => [[0,0,1],[1,1,1]]

/-- `PIECES`: the pieces in dictionary insertion order. -/
def PIECES : List Piece := [.I, .O, .T, .S, .Z, .J, .L]

/-- `PIECE_TO_IDX`: position of a piece in `PIECES`. -/
def PIECE_TO_IDX : Piece → Nat
  | .I => 0 | .O => 1 | .T => 2 | .S => 3 | .Z => 4 | .J => 5 | .L => 6

/-- Length of Python `zip(*rows)`: the minimum row length (0 for no rows). -/
def pyZipLen (rows : List (List Nat)) : Nat :=
  match rows with
  | [] => 0
  | r :: rs => rs.foldl (fun m s => min m s.length) r.length

/-- `rotate(shape)`: 90° clockwise rotation,
`[list(row) for row in zip(*shape[::-1])]`. -/
def rotate (shape : Shape) : Shape :=
  let rev := shape.reverse
  (List.range (pyZipLen rev)).map (fun i => rev.map (fun row => row.getD i 0))

/-- The loop of `build_rotations`: up to `n` more iterations, current matrix
`cur`, collected list `rots`; stop as soon as `cur` duplicates a collected
matrix (Python compares tuple-of-tuples, i.e. by value). -/
def buildRotAux : Nat → Shape → List Shape → List Shape
  | 0, _, rots => rots
  | n + 1, cur, rots =>
    if cur ∈ rots then rots else buildRotAux n (rotate cur) (rots ++ [cur])

/-- `build_rotations(base)`: unique rotations (max 4) of a base shape. -/
def build_rotations (base : Shape) : List Shape :=
  buildRotAux 4 base []

/-- `ROTATIONS`: the rotation cache, piece to rotation list. -/
def ROTATIONS (p : Piece) : List Shape :=
  build_rotations (SHAPES_BASE p)

/-- Read board cell `g[r][c]` (Nat indices; out-of-range reads default to
empty — the source only ever indexes in range on well-formed boards). -/
def cellAt (g : Board) (r c : Nat) : Cell :=
  (g.getD r []).getD c 0

/-- Read shape cell `shape[y][x]`. -/
def shapeAt (s : Shape) (y x : Nat) : Nat :=
  (s.getD y []).getD x 0

/-- `create_grid()`: a `ROWS × COLS` grid of zeros. -/
def create_grid : Board :=
  List.replicate ROWS (List.replicate COLS 0)

/-- The per-cell test of `valid_move` for an occupied shape cell landing on
absolute coordinates `(nx, ny)`: the cell is acceptable iff none of the
failure conditions `nx < 0`, `nx ≥ COLS`, `ny ≥ ROWS`,
`ny ≥ 0 ∧ g[ny][nx]` holds. -/
def cellOK (g : Board) (nx ny : Int) : Prop :=
  ¬(nx < 0 ∨ (COLS : Int) ≤ nx ∨ (ROWS : Int) ≤ ny ∨
    (0 ≤ ny ∧ cellAt g ny.toNat nx.toNat ≠ 0))

instance (g : Board) (nx ny : Int) : Decidable (cellOK g nx ny) := by
  unfold cellOK; infer_instance

/-- `valid_move(grid, shape, offset)`: every occupied cell of `shape`,
shifted by `offset = (ox, oy)`, passes `cellOK`. -/
def valid_move (grid : Board) (shape : Shape) (offset : Int × Int) : Bool :=
  (List.range shape.length).all fun y =>
    (List.range (shape.getD y []).length).all fun x =>
      if shapeAt shape y x ≠ 0 then
        decide (cellOK grid ((x : Int) + offset.1) ((y : Int) + offset.2))
      else true

/-- Write value `v` into cell `(r, c)` of the board. -/
def setCell (g : Board) (r c : Nat) (v : Cell) : Board :=
  g.set r ((g.getD r []).set c v)

/-- `lock_piece(grid, shape, offset, color_idx)`: write `color_idx + 1` into
every occupied absolute cell; the mutation is modelled by returning the
updated board. -/
def lock_piece (grid : Board) (shape : Shape) (offset : Nat × Nat)
    (colorIdx : Nat) : Board :=
  (List.range shape.length).foldl (fun g y =>
    (List.range (shape.getD y []).length).foldl (fun g x =>
      if shapeAt shape y x ≠ 0 then
        setCell g (y + offset.2) (x + offset.1) (colorIdx + 1)
      else g) g) grid

/-- Row kept by `remove_lines`: it has at least one zero cell. -/
def hasZero (row : List Cell) : Bool :=
  row.any fun c => c = 0

/-- `remove_lines(grid)`: keep the rows that have zeros, prepend as many
empty rows as were dropped; the count of dropped rows is `ROWS` minus the
number of kept rows (the source uses the global `ROWS`, not `len(grid)`). -/
def remove_lines (grid : Board) : Board × Nat :=
  let new_grid := grid.filter hasZero
  let lines := ROWS - new_grid.length
  (List.replicate lines (List.replicate COLS 0) ++ new_grid, lines)

/-- One step of the per-column scan of `get_heights_and_holes`: state is
`(block_found, height, holes_col)`, scanning row `r`. -/
def colStep (grid : Board) (c : Nat) (st : Bool × Nat × Nat) (r : Nat) :
    Bool × Nat × Nat :=
  if cellAt grid r c ≠ 0 then
    if st.1 then st else (true, ROWS - r, st.2.2)
  else
    if st.1 then (st.1, st.2.1, st.2.2 + 1) else st

/-- The scan of one column of `get_heights_and_holes`: its height and its
hole count. -/
def colStats (grid : Board) (c : Nat) : Nat × Nat :=
  let st := (List.range ROWS).foldl (colStep grid c) (false, 0, 0)
  (st.2.1, st.2.2)

/-- `get_heights_and_holes(grid)`: per-column heights and total hole count,
one pass per column. -/
def get_heights_and_holes (grid : Board) : List Nat × Nat :=
  ((List.range COLS).map fun c => (colStats grid c).1,
   (List.range COLS).foldl (fun acc c => acc + (colStats grid c).2) 0)

/-- `bumpiness_from_heights(heights)`: sum of `abs(heights[i]-heights[i+1])`
over `i < COLS - 1` (Python `abs` of an integer difference). -/
def bumpiness_from_heights (heights : List Nat) : Nat :=
  (List.range (COLS - 1)).foldl
    (fun s i => s + ((heights.getD i 0 : Int) - heights.getD (i+1) 0).natAbs) 0

/-- `aggregate_height(heights)`: sum of the heights. -/
def aggregate_height (heights : List Nat) : Nat :=
  heights.sum

/-- `evaluate(grid, lines)`: the fixed linear heuristic, floats modelled as
exact rationals. -/
def evaluate (grid : Board) (lines : Nat) : ℚ :=
  let hh := get_heights_and_holes grid
  ((-0.51066 : ℚ) * (aggregate_height hh.1 : ℚ))
    + ((0.760666 : ℚ) * (lines : ℚ))
    - ((0.35663 : ℚ) * (hh.2 : ℚ))
    - ((0.184483 : ℚ) * (bumpiness_from_heights hh.1 : ℚ))

/-- The `while` loop of `hard_drop`, with explicit fuel: at row `row`, keep
descending while the placement one row further down is valid; `none` when
the fuel runs out (the Python loop would still be running). -/
def dropLoop (grid : Board) (shape : Shape) (col : Nat) :
    Nat → Nat → Option Nat
  | _, 0 => none
  | row, fuel + 1 =>
    if valid_move grid shape ((col : Int), (row : Int) + 1) then
      dropLoop grid shape col (row + 1) fuel
    else
      some row

/-- `hard_drop(grid, shape, col)`: start at row 0 and descend while valid.
Fuel `ROWS` is enough for every shape with an occupied cell
(`hard_drop_terminates`). -/
def hard_drop (grid : Board) (shape : Shape) (col : Nat) : Option Nat :=
  dropLoop grid shape col 0 ROWS

/-- The running state of `best_move`: best score so far (initially `-inf`,
modelled as `⊥`), best column and best rotation index (initially 0). -/
abbrev SearchState := WithBot ℚ × Nat × Nat

/-- The Python copy `[r[:] for r in g]` (value-equal to `g`). -/
def copyBoard (g : Board) : Board :=
  g.map fun r => r.map fun c => c

/-- The body of the inner loop of `best_move` for one candidate
`(rot_idx, shape, col)`: hard-drop, re-validate (skip on failure), lock and
clear lines on a copy, evaluate, and keep the candidate iff its score is
strictly greater than the best so far. -/
def tryCandidate (grid : Board) (colorIdx : Nat) (shape : Shape)
    (rotIdx col : Nat) (st : SearchState) : SearchState :=
  match hard_drop grid shape col with
  | none => st
  | some row =>
    if valid_move grid shape ((col : Int), (row : Int)) then
      let temp := copyBoard grid
      let temp := lock_piece temp shape (col, row) colorIdx
      let cleared := remove_lines temp
      let score := evaluate cleared.1 cleared.2
      if st.1 < (score : WithBot ℚ) then ((score : WithBot ℚ), col, rotIdx)
      else st
    else st

/-- The candidate columns of one rotation: `range(COLS - width + 1)` where
`width = len(shape[0])` (Python `range` of a negative bound is empty, hence
the `Int.toNat`). -/
def colRange (shape : Shape) : List Nat :=
  List.range ((COLS : Int) - (shape.headD []).length + 1).toNat

/-- `best_move(grid, piece_name, rotations_list)`: enumerate rotation
indices ascending and columns ascending, and return `(best_col, best_rot)`. -/
def best_move (grid : Board) (piece : Piece) (rotations : List Shape) :
    Nat × Nat :=
  let colorIdx := PIECE_TO_IDX piece
  let final := rotations.enum.foldl (fun st rs =>
    (colRange rs.2).foldl (fun st col =>
      tryCandidate grid colorIdx rs.2 rs.1 col st) st)
    ((⊥ : WithBot ℚ), 0, 0)
  (final.2.1, final.2.2)

/-- The state-passing form of `best_move`: the live board owned by the
caller is threaded through the whole search and handed back next to the
result, so that what the source does to it is visible in the type. Every
branch reads `g` and writes only `temp`, the copy. -/
def tryCandidateState (colorIdx : Nat) (shape : Shape) (rotIdx col : Nat)
    (stg : SearchState × Board) : SearchState × Board :=
  let st := stg.1
  let g := stg.2
  match hard_drop g shape col with
  | none => (st, g)
  | some row =>
    if valid_move g shape ((col : Int), (row : Int)) then
      let temp := copyBoard g
      let temp := lock_piece temp shape (col, row) colorIdx
      let cleared := remove_lines temp
      let score := evaluate cleared.1 cleared.2
      (if st.1 < (score : WithBot ℚ) then ((score : WithBot ℚ), col, rotIdx)
       else st, g)
    else (st, g)

/-- `best_move` with the live board threaded: returns the `(col, rot)`
answer together with the caller's board as the search leaves it. -/
def best_move_state (grid : Board) (piece : Piece)
    (rotations : List Shape) : (Nat × Nat) × Board :=
  let colorIdx := PIECE_TO_IDX piece
  let final := rotations.enum.foldl (fun stg rs =>
    (colRange rs.2).foldl (fun stg col =>
      tryCandidateState colorIdx rs.2 rs.1 col stg) stg)
    (((⊥ : WithBot ℚ), 0, 0), grid)
  ((final.1.2.1, final.1.2.2), final.2)

/-! ### Reference definitions, following the specification's words

These re-state, directly from the specification text, what the search is
claimed to compute; the theorems below compare them with the source
translation above. -/

/-- The candidate enumeration the specification describes: rotation index
ascending, and within each rotation, column ascending over the feasible
range. Entries are `(rot_idx, shape, col)`. -/
def candidates (rotations : List Shape) : List (Nat × Shape × Nat) :=
  rotations.enum.flatMap fun rs => (colRange rs.2).map fun c => (rs.1, rs.2, c)

/-- The effective score of a candidate: `none` when the candidate is skipped
(drop loop does not finish, or the dropped placement fails validation),
otherwise the heuristic score of the resulting board. -/
def effScore (grid : Board) (colorIdx : Nat) (shape : Shape) (col : Nat) :
    Option ℚ :=
  match hard_drop grid shape col with
  | none => none
  | some row =>
    if valid_move grid shape ((col : Int), (row : Int)) then
      let temp := lock_piece (copyBoard grid) shape (col, row) colorIdx
      let cleared := remove_lines temp
      some (evaluate cleared.1 cleared.2)
    else none

/-- The candidates with their effective scores (skipped ↦ `⊥`), as
`(score, col, rot_idx)` triples in enumeration order. -/
def scoredCandidates (grid : Board) (colorIdx : Nat)
    (rotations : List Shape) : List (WithBot ℚ × Nat × Nat) :=
  (candidates rotations).map fun rsc =>
    ((effScore grid colorIdx rsc.2.1 rsc.2.2 : WithBot ℚ), rsc.2.2, rsc.1)

/-- The maximum effective score over a scored candidate list (`⊥` when the
list is empty or every candidate is skipped). -/
def maxScore (l : List (WithBot ℚ × Nat × Nat)) : WithBot ℚ :=
  (l.map fun e => e.1).foldr max ⊥

/-- The result the specification describes: the first candidate, in
enumeration order, that achieves the maximum score; `(0, 0)` — the
initialised state — when no candidate scores at all. -/
def spec_best_move (grid : Board) (piece : Piece)
    (rotations : List Shape) : Nat × Nat :=
  let l := scoredCandidates grid (PIECE_TO_IDX piece) rotations
  match l.find? fun e => e.1 = maxScore l ∧ e.1 ≠ ⊥ with
  | some e => e.2
  | none => (0, 0)

/-- A full row in the sense of the specification: every cell non-empty. -/
def isFull (row : List Cell) : Bool :=
  row.all fun c => c ≠ 0

/-- Row index of the topmost occupied cell of column `c` among the first `n`
rows (`none` when those rows of the column are empty). -/
def topRowN (grid : Board) (c n : Nat) : Option Nat :=
  (List.range n).find? fun r => cellAt grid r c ≠ 0

/-- Row index of the topmost occupied cell of column `c` (`none` when the
column is entirely empty). -/
def topRow (grid : Board) (c : Nat) : Option Nat :=
  topRowN grid c ROWS

/-- Height of column `c` judged from its first `n` rows:
`ROWS - (topmost occupied row)`, or 0 when those rows are empty. -/
def specHeightN (grid : Board) (c n : Nat) : Nat :=
  match topRowN grid c n with
  | none => 0
  | some r => ROWS - r

/-- The height of column `c` as the specification defines it:
`ROWS − (row index of the topmost occupied cell)`, or 0 when the column is
entirely empty. -/
def specHeight (grid : Board) (c : Nat) : Nat :=
  specHeightN grid c ROWS

/-- The hole count of column `c` among its first `n` rows: empty cells
strictly below the topmost occupied cell. -/
def specHolesN (grid : Board) (c n : Nat) : Nat :=
  match topRowN grid c n with
  | none => 0
  | some r0 =>
    ((List.range n).filter fun r => decide (r0 < r ∧ cellAt grid r c = 0)).length

/-- The hole count of column `c` as the specification defines it: empty
cells of the column strictly below its topmost occupied cell. -/
def specHoles (grid : Board) (c : Nat) : Nat :=
  specHolesN grid c ROWS

/-- One comparison step of the running-maximum scan: keep the new entry
`(score, col, rot)` exactly when its score strictly exceeds the best so
far. -/
def keepBetter (st e : SearchState) : SearchState :=
  if st.1 < e.1 then e else st

/-- An entirely occupied board: no placement of any piece is valid on it. -/
def fullGrid : Board :=
  List.replicate ROWS (List.replicate COLS 1)

/-- A board whose bottom row is full and all other rows are empty. -/
def lineGrid : Board :=
  List.replicate (ROWS - 1) (List.replicate COLS 0) ++ [List.replicate COLS 2]

/-- A board that is entirely occupied except a 2×2 notch in the top-left
corner: the O piece fits there, at column 0, and nowhere else. -/
def notchGrid : Board :=
  [[0,0,1,1,1,1,1,1,1,1], [0,0,1,1,1,1,1,1,1,1]]
    ++ List.replicate (ROWS - 2) (List.replicate COLS 1)

/-! ## Theorems -/

/-- `valid_move` as a bounded universal over the occupied cells of the
shape. -/
theorem valid_move_eq_true_iff (grid : Board) (shape : Shape) (ox oy : Int) :
    valid_move grid shape (ox, oy) = true ↔
      ∀ y, y < shape.length → ∀ x, x < (shape.getD y []).length →
        shapeAt shape y x ≠ 0 → cellOK grid ((x : Int) + ox) ((y : Int) + oy) := by
  simp only [valid_move, List.all_eq_true, List.mem_range]
  constructor
  · intro h y hy x hx hocc
    have := h y hy x hx
    rw [if_pos hocc] at this
    exact of_decide_eq_true this
  · intro h y hy x hx
    by_cases hocc : shapeAt shape y x ≠ 0
    · rw [if_pos hocc]
      exact decide_eq_true (h y hy x hx hocc)
    · rw [if_neg hocc]

/-- C6 counterexample: the claim expects exactly two piece types with
exactly 2 rotation matrices (and hence four with 4), but three piece types
(I, S, Z) have exactly 2, and only three (T, J, L) have 4. -/
theorem rotation_counts_counterexample :
    (PIECES.filter fun p => (ROTATIONS p).length = 2).length = 3 ∧
    ¬(PIECES.filter fun p => (ROTATIONS p).length = 2).length = 2 ∧
    (PIECES.filter fun p => (ROTATIONS p).length = 4).length = 3 ∧
    ¬(PIECES.filter fun p => (ROTATIONS p).length = 4).length = 4 := by
  decide

/-- C6 amended: `build_rotations` yields exactly 1 rotation matrix for the
fully symmetric piece O, exactly 2 for the three piece types with 180°-only
symmetry (I, S, Z), and exactly 4 for the remaining three (T, J, L); the
entries of every list are pairwise distinct. -/
theorem rotation_counts :
    (ROTATIONS .O).length = 1 ∧
    (ROTATIONS .I).length = 2 ∧
    (ROTATIONS .S).length = 2 ∧
    (ROTATIONS .Z).length = 2 ∧
    (ROTATIONS .T).length = 4 ∧
    (ROTATIONS .J).length = 4 ∧
    (ROTATIONS .L).length = 4 ∧
    ∀ p ∈ PIECES, (ROTATIONS p).Nodup := by
  decide

/-- C3: `valid_move` returns false if and only if some occupied cell of the
matrix has absolute column `< 0` or `≥ COLS`, or absolute row `≥ ROWS`, or
has absolute row `≥ 0` and lands on an already-occupied board cell; in
particular an occupied cell with absolute row `< 0` is checked only against
the horizontal bounds, never against board occupancy. -/
theorem valid_move_false_iff (grid : Board) (shape : Shape) (ox oy : Int) :
    valid_move grid shape (ox, oy) = false ↔
      ∃ y, y < shape.length ∧ ∃ x, x < (shape.getD y []).length ∧
        shapeAt shape y x ≠ 0 ∧
        ((x : Int) + ox < 0 ∨ (COLS : Int) ≤ (x : Int) + ox ∨
         (ROWS : Int) ≤ (y : Int) + oy ∨
         (0 ≤ (y : Int) + oy ∧
           cellAt grid ((y : Int) + oy).toNat ((x : Int) + ox).toNat ≠ 0)) := by
  rw [← Bool.not_eq_true, valid_move_eq_true_iff]
  push_neg
  simp only [cellOK, not_not]

/-- A row has a zero cell exactly when it is not full. -/
theorem hasZero_eq_not_isFull (row : List Cell) : hasZero row = !(isFull row) := by
  induction row with
  | nil => rfl
  | cons c cs ih =>
    by_cases h : c = 0
    · simp [hasZero, isFull, h]
    · simp only [hasZero, isFull] at ih ⊢
      simp [h, ih]

/-- C4: on a board of `ROWS` rows, `remove_lines` returns exactly the
non-full rows in their original relative order, preceded by as many empty
rows as there were full rows, together with the count of full rows (a row
being full iff every cell is non-empty); on a board with zero full rows it
returns the board unchanged with count 0. -/
theorem remove_lines_spec (grid : Board) (h : grid.length = ROWS) :
    remove_lines grid =
      (List.replicate (grid.filter isFull).length (List.replicate COLS 0)
        ++ grid.filter (fun r => !(isFull r)), (grid.filter isFull).length) ∧
    ((grid.filter isFull).length = 0 → remove_lines grid = (grid, 0)) := by
  have hZ : grid.filter hasZero = grid.filter (fun r => !(isFull r)) := by
    apply List.filter_congr
    intro r _
    exact hasZero_eq_not_isFull r
  have hsplit := List.length_eq_length_filter_add (l := grid) isFull
  have hlen : ROWS - (grid.filter fun r => !(isFull r)).length =
      (grid.filter isFull).length := by
    omega
  have hmain : remove_lines grid =
      (List.replicate (grid.filter isFull).length (List.replicate COLS 0)
        ++ grid.filter (fun r => !(isFull r)), (grid.filter isFull).length) := by
    simp only [remove_lines, hZ, hlen]
  refine ⟨hmain, ?_⟩
  intro h0
  rw [hmain, h0]
  have hall : ∀ r ∈ grid, (!(isFull r)) = true := by
    intro r hr
    by_contra hfull
    have hmem : r ∈ grid.filter isFull := by
      apply List.mem_filter.mpr
      exact ⟨hr, by simpa using hfull⟩
    rw [List.length_eq_zero.mp h0] at hmem
    simp at hmem
  simp [List.filter_eq_self.mpr hall]

/-- C4 witness: `remove_lines_spec` applied to the board whose bottom row is
the only full row. -/
theorem remove_lines_spec_witness :
    lineGrid.length = ROWS ∧
    (remove_lines lineGrid =
      (List.replicate (lineGrid.filter isFull).length (List.replicate COLS 0)
        ++ lineGrid.filter (fun r => !(isFull r)),
       (lineGrid.filter isFull).length) ∧
    ((lineGrid.filter isFull).length = 0 → remove_lines lineGrid = (lineGrid, 0))) :=
  ⟨by decide, remove_lines_spec lineGrid (by decide)⟩

/-- Scanning one more row extends the topmost-occupied search. -/
theorem topRowN_succ (grid : Board) (c n : Nat) :
    topRowN grid c (n+1) =
      (topRowN grid c n).or (if cellAt grid n c ≠ 0 then some n else none) := by
  unfold topRowN
  rw [List.range_succ, List.find?_append]
  congr 1
  by_cases h : cellAt grid n c ≠ 0
  · simp [List.find?, h]
  · simp [List.find?, h]

/-- The topmost occupied row among the first `n` rows is below `n`. -/
theorem topRowN_lt (grid : Board) (c n r0 : Nat) (h : topRowN grid c n = some r0) :
    r0 < n := by
  have := List.mem_of_find?_eq_some h
  simpa using this

/-- Invariant of the per-column scan of `get_heights_and_holes`: after the
first `n` rows, the state holds whether a block was found, the height from
the topmost occupied row, and the holes seen so far. -/
theorem scan_inv (grid : Board) (c : Nat) : ∀ n,
    (List.range n).foldl (colStep grid c) (false, 0, 0) =
      ((topRowN grid c n).isSome, specHeightN grid c n, specHolesN grid c n) := by
  intro n
  induction n with
  | zero => rfl
  | succ n ih =>
    rw [List.range_succ, List.foldl_append, ih]
    cases htop : topRowN grid c n with
    | none =>
      have hH : specHeightN grid c n = 0 := by simp [specHeightN, htop]
      have hO : specHolesN grid c n = 0 := by simp [specHolesN, htop]
      by_cases hocc : cellAt grid n c ≠ 0
      · have htop' : topRowN grid c (n+1) = some n := by
          rw [topRowN_succ, htop, if_pos hocc]
          rfl
        have hH' : specHeightN grid c (n+1) = ROWS - n := by simp [specHeightN, htop']
        have hO' : specHolesN grid c (n+1) = 0 := by
          simp only [specHolesN, htop']
          have hf : ((List.range (n+1)).filter
              fun r => decide (n < r ∧ cellAt grid r c = 0)) = [] := by
            apply List.filter_eq_nil_iff.mpr
            intro r hr
            have := List.mem_range.mp hr
            simp only [decide_eq_true_eq, not_and]
            omega
          rw [hf]
          rfl
        simp [colStep, htop, hocc, hH, hO, htop', hH', hO']
      · have htop' : topRowN grid c (n+1) = none := by
          rw [topRowN_succ, htop, if_neg hocc]
          rfl
        have hH' : specHeightN grid c (n+1) = 0 := by simp [specHeightN, htop']
        have hO' : specHolesN grid c (n+1) = 0 := by simp [specHolesN, htop']
        simp [colStep, htop, hocc, hH, hO, htop', hH', hO']
    | some r0 =>
      have htop' : topRowN grid c (n+1) = some r0 := by
        rw [topRowN_succ, htop]
        rfl
      have hr0 : r0 < n := topRowN_lt grid c n r0 htop
      have hH : specHeightN grid c n = ROWS - r0 := by simp [specHeightN, htop]
      have hH' : specHeightN grid c (n+1) = ROWS - r0 := by simp [specHeightN, htop']
      by_cases hocc : cellAt grid n c ≠ 0
      · have hO' : specHolesN grid c (n+1) = specHolesN grid c n := by
          simp only [specHolesN, htop', htop]
          rw [List.range_succ, List.filter_append]
          have hf : ([n].filter fun r => decide (r0 < r ∧ cellAt grid r c = 0)) = [] := by
            simp [hocc]
          rw [hf, List.append_nil]
        simp [colStep, htop, hocc, hH, hH', htop', hO']
      · have hocc0 : cellAt grid n c = 0 := by simpa using hocc
        have hO' : specHolesN grid c (n+1) = specHolesN grid c n + 1 := by
          simp only [specHolesN, htop', htop]
          rw [List.range_succ, List.filter_append]
          have hf : ([n].filter fun r => decide (r0 < r ∧ cellAt grid r c = 0)) = [n] := by
            simp [hocc0, hr0]
          rw [hf, List.length_append]
          simp
        simp [colStep, htop, hocc0, hH, hH', htop', hO']

/-- Accumulating a sum by `foldl` equals the sum over the mapped list. -/
theorem foldl_add_eq_sum (f : Nat → Nat) : ∀ (l : List Nat) (a : Nat),
    l.foldl (fun acc x => acc + f x) a = a + (l.map f).sum := by
  intro l
  induction l with
  | nil => simp
  | cons x xs ih =>
    intro a
    simp [ih, Nat.add_assoc]

/-- The single-pass column scan computes the specified height and hole
count of the column. -/
theorem colStats_eq (grid : Board) (c : Nat) :
    colStats grid c = (specHeight grid c, specHoles grid c) := by
  unfold colStats
  rw [scan_inv grid c ROWS]
  rfl

/-- `get_heights_and_holes` in terms of the specified per-column height and
hole count. -/
theorem get_heights_and_holes_eq (grid : Board) :
    get_heights_and_holes grid =
      ((List.range COLS).map fun c => specHeight grid c,
       ((List.range COLS).map fun c => specHoles grid c).sum) := by
  unfold get_heights_and_holes
  rw [foldl_add_eq_sum (fun c => (colStats grid c).2) (List.range COLS) 0]
  simp [colStats_eq]

/-- C5: `get_heights_and_holes` returns, for each column, the height
`ROWS - (row index of the topmost occupied cell)` (0 for an entirely empty
column), and as second component the total number of holes across all
columns, a hole being an empty cell strictly below the topmost occupied
cell of its column. -/
theorem heights_and_holes_spec (grid : Board) :
    (get_heights_and_holes grid).1 =
      (List.range COLS).map (fun c => specHeight grid c) ∧
    (get_heights_and_holes grid).2 =
      ((List.range COLS).map fun c => specHoles grid c).sum := by
  rw [get_heights_and_holes_eq]
  exact ⟨rfl, rfl⟩

/-- `getD` on a mapped range is the function value. -/
theorem getD_map_range (f : Nat → Nat) (n i : Nat) (h : i < n) :
    ((List.range n).map f).getD i 0 = f i := by
  rw [List.getD_eq_getElem?_getD, List.getElem?_map, List.getElem?_range h]
  rfl

/-- `bumpiness_from_heights` on the specified height vector is the sum of
absolute differences of adjacent column heights. -/
theorem bumpiness_eq (grid : Board) :
    bumpiness_from_heights ((List.range COLS).map fun c => specHeight grid c) =
      ((List.range (COLS - 1)).map fun i =>
        ((specHeight grid i : Int) - specHeight grid (i+1)).natAbs).sum := by
  unfold bumpiness_from_heights
  rw [foldl_add_eq_sum
    (fun i => ((((List.range COLS).map fun c => specHeight grid c).getD i 0 : Int)
      - ((List.range COLS).map fun c => specHeight grid c).getD (i+1) 0).natAbs)
    (List.range (COLS - 1)) 0]
  rw [Nat.zero_add]
  apply congrArg List.sum
  apply List.map_congr_left
  intro i hi
  have hi' : i < COLS - 1 := List.mem_range.mp hi
  have h1 : i < COLS := by
    have : (0:Nat) < COLS := by decide
    omega
  have h2 : i + 1 < COLS := by omega
  rw [getD_map_range _ _ _ h1, getD_map_range _ _ _ h2]

/-- C2: `evaluate` returns exactly
`(-0.51066)·aggregateHeight + 0.760666·linesCleared + (-0.35663)·holeCount
+ (-0.184483)·bumpiness`, where aggregateHeight is the sum of the column
heights, holeCount the total hole count, and bumpiness the sum of absolute
differences of adjacent column heights (floats modelled as exact
rationals). -/
theorem evaluate_spec (grid : Board) (lines : Nat) :
    evaluate grid lines =
      (-0.51066 : ℚ) * (((List.range COLS).map fun c => specHeight grid c).sum : ℚ)
      + (0.760666 : ℚ) * (lines : ℚ)
      + (-0.35663 : ℚ) * (((List.range COLS).map fun c => specHoles grid c).sum : ℚ)
      + (-0.184483 : ℚ) *
        (((List.range (COLS - 1)).map fun i =>
            ((specHeight grid i : Int) - specHeight grid (i+1)).natAbs).sum : ℚ) := by
  unfold evaluate
  rw [get_heights_and_holes_eq]
  simp only [bumpiness_eq]
  unfold aggregate_height
  ring

/-- A shape with an occupied cell is out of bounds — hence invalid — at any
vertical offset of at least `ROWS`. -/
theorem occupied_invalid (grid : Board) (shape : Shape) (ox oy : Int)
    (hcell : ∃ y, y < shape.length ∧ ∃ x, x < (shape.getD y []).length ∧
      shapeAt shape y x ≠ 0)
    (hge : (ROWS : Int) ≤ oy) :
    valid_move grid shape (ox, oy) = false := by
  obtain ⟨y, hy, x, hx, hocc⟩ := hcell
  rw [Bool.eq_false_iff]
  intro hv
  have hok := (valid_move_eq_true_iff grid shape ox oy).mp hv y hy x hx hocc
  unfold cellOK at hok
  push_neg at hok
  have := hok.2.2.1
  omega

/-- The fuelled descent loop: as soon as some row within reach of the fuel
fails validation, the loop stops at the first such row. -/
theorem dropLoop_finds (grid : Board) (shape : Shape) (col : Nat) :
    ∀ fuel row, (∃ k, k < fuel ∧
        valid_move grid shape ((col : Int), ((row + k : Nat) : Int) + 1) = false) →
      ∃ r, dropLoop grid shape col row fuel = some r ∧ row ≤ r ∧
        valid_move grid shape ((col : Int), (r : Int) + 1) = false ∧
        ∀ j, row ≤ j → j < r →
          valid_move grid shape ((col : Int), (j : Int) + 1) = true := by
  intro fuel
  induction fuel with
  | zero =>
    rintro row ⟨k, hk, -⟩
    omega
  | succ fuel ih =>
    rintro row ⟨k, hk, hinv⟩
    by_cases hv : valid_move grid shape ((col : Int), (row : Int) + 1) = true
    · have hk0 : k ≠ 0 := by
        rintro rfl
        simp only [Nat.add_zero] at hinv
        rw [hv] at hinv
        simp at hinv
      obtain ⟨k', rfl⟩ : ∃ k', k = k' + 1 := ⟨k - 1, by omega⟩
      have hsh : ((row + (k' + 1) : Nat) : Int) = (((row + 1) + k' : Nat) : Int) := by
        push_cast
        ring
      rw [hsh] at hinv
      obtain ⟨r, hdrop, hle, hinv', hall⟩ := ih (row + 1) ⟨k', by omega, hinv⟩
      refine ⟨r, ?_, by omega, hinv', ?_⟩
      · unfold dropLoop
        rw [if_pos hv]
        exact hdrop
      · intro j hj1 hj2
        rcases Nat.eq_or_lt_of_le hj1 with rfl | hlt
        · exact hv
        · exact hall j hlt hj2
    · refine ⟨row, ?_, Nat.le_refl _, by simpa using hv, ?_⟩
      · unfold dropLoop
        rw [if_neg hv]
      · intro j hj1 hj2
        omega

/-- C9: for every board, every rotation matrix with at least one occupied
cell, and every column, `hard_drop` terminates within the board height —
the loop's row never reaches `ROWS` — and returns the row reached by
starting at row 0 and descending while the placement one row further down
is valid: the least `r ≥ 0` such that the placement at row `r + 1` is
invalid. -/
theorem hard_drop_spec (grid : Board) (shape : Shape) (col : Nat)
    (hcell : ∃ y, y < shape.length ∧ ∃ x, x < (shape.getD y []).length ∧
      shapeAt shape y x ≠ 0) :
    ∃ r, hard_drop grid shape col = some r ∧ r < ROWS ∧
      valid_move grid shape ((col : Int), (r : Int) + 1) = false ∧
      ∀ j, j < r → valid_move grid shape ((col : Int), (j : Int) + 1) = true := by
  have hbound : ∀ j : Nat, ROWS - 1 ≤ j →
      valid_move grid shape ((col : Int), (j : Int) + 1) = false := by
    intro j hj
    apply occupied_invalid grid shape _ _ hcell
    have : (ROWS : Nat) - 1 ≤ j := hj
    omega
  have hstart : ∃ k, k < ROWS ∧
      valid_move grid shape ((col : Int), ((0 + k : Nat) : Int) + 1) = false := by
    refine ⟨ROWS - 1, by decide, ?_⟩
    apply hbound
    omega
  obtain ⟨r, hdrop, -, hinv, hall⟩ := dropLoop_finds grid shape col ROWS 0 hstart
  refine ⟨r, hdrop, ?_, hinv, fun j hj => hall j (Nat.zero_le j) hj⟩
  by_contra hge
  push_neg at hge
  have hR : (0:Nat) < ROWS := by decide
  have hj := hall (ROWS - 1) (Nat.zero_le _) (by omega)
  rw [hbound (ROWS - 1) (Nat.le_refl _)] at hj
  exact Bool.false_ne_true hj

/-- C9 witness: `hard_drop_spec` applied to the empty grid, the flat bar
shape and column 3. -/
theorem hard_drop_spec_witness :
    (∃ y, y < (SHAPES_BASE Piece.I).length ∧
      ∃ x, x < ((SHAPES_BASE Piece.I).getD y []).length ∧
        shapeAt (SHAPES_BASE Piece.I) y x ≠ 0) ∧
    (∃ r, hard_drop create_grid (SHAPES_BASE Piece.I) 3 = some r ∧ r < ROWS ∧
      valid_move create_grid (SHAPES_BASE Piece.I) ((3 : Int), (r : Int) + 1) = false ∧
      ∀ j, j < r →
        valid_move create_grid (SHAPES_BASE Piece.I) ((3 : Int), (j : Int) + 1) = true) :=
  ⟨⟨0, by decide, 0, by decide, by decide⟩,
   hard_drop_spec create_grid (SHAPES_BASE Piece.I) 3
     ⟨0, by decide, 0, by decide, by decide⟩⟩

/-- The maximum score of the empty candidate list is `⊥`. -/
theorem maxScore_nil : maxScore [] = ⊥ := rfl

/-- `maxScore` unfolds over a cons. -/
theorem maxScore_cons (e : SearchState) (t : List SearchState) :
    maxScore (e :: t) = max e.1 (maxScore t) := by
  simp [maxScore]

/-- Every entry's score is bounded by the maximum. -/
theorem le_maxScore (l : List SearchState) : ∀ e ∈ l, e.1 ≤ maxScore l := by
  induction l with
  | nil =>
    intro e he
    simp at he
  | cons a t ih =>
    intro e he
    rw [maxScore_cons]
    rcases List.mem_cons.mp he with rfl | ht
    · exact le_max_left _ _
    · exact le_trans (ih e ht) (le_max_right _ _)

/-- The running-maximum scan does not move off a state at least as good as
every entry. -/
theorem foldl_keepBetter_stay (l : List SearchState) :
    ∀ st : SearchState, (∀ e ∈ l, e.1 ≤ st.1) → l.foldl keepBetter st = st := by
  induction l with
  | nil =>
    intro st _
    rfl
  | cons a t ih =>
    intro st h
    have ha : a.1 ≤ st.1 := h a (List.mem_cons_self a t)
    have hstep : keepBetter st a = st := by
      unfold keepBetter
      rw [if_neg (not_lt_of_le ha)]
    rw [List.foldl_cons, hstep]
    exact ih st fun e he => h e (List.mem_cons_of_mem a he)

/-- When the maximum beats the initial state, the running-maximum scan with
strict comparison ends at the first entry achieving the maximum. -/
theorem foldl_keepBetter_finds (l : List SearchState) :
    ∀ st : SearchState, st.1 < maxScore l →
      ∃ e, (l.find? fun e => decide (e.1 = maxScore l ∧ e.1 ≠ ⊥)) = some e ∧
        l.foldl keepBetter st = e := by
  induction l with
  | nil =>
    intro st h
    rw [maxScore_nil] at h
    exact absurd h (not_lt_bot)
  | cons a t ih =>
    intro st h
    by_cases ha : a.1 = maxScore (a :: t)
    · have hbot : a.1 ≠ ⊥ := by
        intro hb
        rw [← ha, hb] at h
        exact absurd h not_lt_bot
      have hpred : (fun e : SearchState =>
          decide (e.1 = maxScore (a :: t) ∧ e.1 ≠ ⊥)) a = true :=
        decide_eq_true ⟨ha, hbot⟩
      have hfind : ((a :: t).find? fun e =>
          decide (e.1 = maxScore (a :: t) ∧ e.1 ≠ ⊥)) = some a :=
        List.find?_cons_of_pos _ hpred
      have hkeep : keepBetter st a = a := by
        unfold keepBetter
        rw [if_pos (ha ▸ h)]
      refine ⟨a, hfind, ?_⟩
      rw [List.foldl_cons, hkeep]
      apply foldl_keepBetter_stay
      intro e he
      calc e.1 ≤ maxScore t := le_maxScore t e he
        _ ≤ max a.1 (maxScore t) := le_max_right _ _
        _ = maxScore (a :: t) := (maxScore_cons a t).symm
        _ = a.1 := ha.symm
    · have haM : a.1 < maxScore (a :: t) := by
        apply lt_of_le_of_ne _ ha
        exact le_maxScore _ a (List.mem_cons_self a t)
      have htM : maxScore t = maxScore (a :: t) := by
        rw [maxScore_cons] at ha ⊢
        rcases max_choice a.1 (maxScore t) with hc | hc
        · exact absurd hc.symm ha
        · exact hc.symm
      have hpred : (fun e : SearchState =>
          decide (e.1 = maxScore (a :: t) ∧ e.1 ≠ ⊥)) a = false :=
        decide_eq_false fun hc => ha hc.1
      have hfind : ((a :: t).find? fun e =>
          decide (e.1 = maxScore (a :: t) ∧ e.1 ≠ ⊥)) =
          t.find? fun e => decide (e.1 = maxScore (a :: t) ∧ e.1 ≠ ⊥) := by
        rw [List.find?_cons_of_neg _ (by simp [hpred])]
      have hst : (keepBetter st a).1 < maxScore t := by
        unfold keepBetter
        by_cases hlt : st.1 < a.1
        · rw [if_pos hlt, htM]
          exact haM
        · rw [if_neg hlt, htM]
          exact h
      obtain ⟨e, hfind', hfold⟩ := ih (keepBetter st a) hst
      refine ⟨e, ?_, ?_⟩
      · rw [hfind, ← htM]
        exact hfind'
      · rw [List.foldl_cons]
        exact hfold

/-- Folding over a flattened list is the nested fold. -/
theorem foldl_flatMap {α β γ : Type} (g : α → List β) (f : γ → β → γ) :
    ∀ (l : List α) (init : γ),
      (l.flatMap g).foldl f init = l.foldl (fun st a => (g a).foldl f st) init := by
  intro l
  induction l with
  | nil =>
    intro init
    rfl
  | cons a t ih =>
    intro init
    rw [List.flatMap_cons, List.foldl_append, List.foldl_cons, ih]

/-- One candidate step of the search is the running-maximum comparison
against the candidate's effective score. -/
theorem tryCandidate_eq (grid : Board) (cIdx : Nat) (shape : Shape)
    (rotIdx col : Nat) (st : SearchState) :
    tryCandidate grid cIdx shape rotIdx col st =
      keepBetter st ((effScore grid cIdx shape col : WithBot ℚ), col, rotIdx) := by
  unfold tryCandidate keepBetter effScore
  cases hard_drop grid shape col with
  | none =>
    rw [if_neg (by exact not_lt_bot)]
  | some row =>
    dsimp only
    by_cases hv : valid_move grid shape ((col : Int), (row : Int)) = true
    · rw [if_pos hv, if_pos hv]
      rfl
    · rw [if_neg hv, if_neg hv, if_neg (by exact not_lt_bot)]

/-- `best_move` is the running-maximum scan over the scored candidate list
in enumeration order. -/
theorem best_move_eq_fold (grid : Board) (piece : Piece) (rotations : List Shape) :
    best_move grid piece rotations =
      ((scoredCandidates grid (PIECE_TO_IDX piece) rotations).foldl keepBetter
        ((⊥ : WithBot ℚ), 0, 0)).2 := by
  unfold best_move scoredCandidates candidates
  rw [List.foldl_map, foldl_flatMap]
  simp only [List.foldl_map]
  simp only [← tryCandidate_eq]

/-- C1: `best_move` enumerates candidates rotation index ascending and,
within each rotation of width `w`, column ascending over `[0, COLS - w]`;
skipped candidates (failed drop or validation) score nothing, the others
score the locked-and-cleared copy with `evaluate`, and the best is tracked
with strict greater-than — so the returned `(column, rotation)` is the
first candidate in enumeration order achieving the maximum score, ties
broken toward the lowest rotation index, then the lowest column. -/
theorem best_move_first_max (grid : Board) (piece : Piece)
    (rotations : List Shape) :
    best_move grid piece rotations = spec_best_move grid piece rotations := by
  rw [best_move_eq_fold]
  unfold spec_best_move
  dsimp only
  by_cases hbot : maxScore (scoredCandidates grid (PIECE_TO_IDX piece) rotations) = ⊥
  · have hstay : (scoredCandidates grid (PIECE_TO_IDX piece) rotations).foldl keepBetter
        ((⊥ : WithBot ℚ), 0, 0) = ((⊥ : WithBot ℚ), 0, 0) := by
      apply foldl_keepBetter_stay
      intro e he
      exact le_of_le_of_eq (le_maxScore _ e he) hbot
    have hfind : ((scoredCandidates grid (PIECE_TO_IDX piece) rotations).find?
        fun e => decide (e.1 = maxScore (scoredCandidates grid (PIECE_TO_IDX piece) rotations)
          ∧ e.1 ≠ ⊥)) = none := by
      apply List.find?_eq_none.mpr
      intro e he
      simp only [decide_eq_true_eq]
      rintro ⟨h1, h2⟩
      exact h2 (h1.trans hbot)
    rw [hstay, hfind]
  · have hlt : ((⊥ : WithBot ℚ), (0:Nat), (0:Nat)).1
        < maxScore (scoredCandidates grid (PIECE_TO_IDX piece) rotations) :=
      bot_lt_iff_ne_bot.mpr hbot
    obtain ⟨e, hfind, hfold⟩ :=
      foldl_keepBetter_finds (scoredCandidates grid (PIECE_TO_IDX piece) rotations) _ hlt
    rw [hfold, hfind]

/-- C7 counterexample: when no candidate is feasible (the full board),
`best_move` returns `(0, 0)` — but it returns the very same `(0, 0)` on a
feasible board (the notched board, where the O piece fits at column 0,
rotation 0), so the value carries no explicit indication the caller could
recognize as terminal; it is exactly the silent fallback the claim rules
out. -/
theorem best_move_silent_counterexample :
    (∀ rsc ∈ candidates (ROTATIONS .I),
      effScore fullGrid (PIECE_TO_IDX .I) rsc.2.1 rsc.2.2 = none) ∧
    best_move fullGrid .I (ROTATIONS .I) = (0, 0) ∧
    (∃ rsc ∈ candidates (ROTATIONS .O),
      effScore notchGrid (PIECE_TO_IDX .O) rsc.2.1 rsc.2.2 ≠ none) ∧
    best_move notchGrid .O (ROTATIONS .O) = (0, 0) := by
  decide

/-- C7 amended: when no candidate passes validation, `best_move` returns
its initialized defaults `(0, 0)`; this value is indistinguishable from a
genuine result at column 0, rotation 0, so the caller gets no explicit
terminal indication. -/
theorem best_move_no_feasible (grid : Board) (p : Piece) (rots : List Shape)
    (h : ∀ rsc ∈ candidates rots,
      effScore grid (PIECE_TO_IDX p) rsc.2.1 rsc.2.2 = none) :
    best_move grid p rots = (0, 0) := by
  have hstay : (scoredCandidates grid (PIECE_TO_IDX p) rots).foldl keepBetter
      ((⊥ : WithBot ℚ), 0, 0) = ((⊥ : WithBot ℚ), 0, 0) := by
    apply foldl_keepBetter_stay
    intro e he
    obtain ⟨rsc, hrsc, rfl⟩ := List.mem_map.mp he
    dsimp only
    rw [h rsc hrsc]
    exact le_refl ⊥
  rw [best_move_eq_fold, hstay]

/-- C7 witness: `best_move_no_feasible` applied to the full board and the
I piece. -/
theorem best_move_no_feasible_witness :
    (∀ rsc ∈ candidates (ROTATIONS .I),
      effScore fullGrid (PIECE_TO_IDX .I) rsc.2.1 rsc.2.2 = none) ∧
    best_move fullGrid .I (ROTATIONS .I) = (0, 0) :=
  ⟨by decide, best_move_no_feasible fullGrid .I (ROTATIONS .I) (by decide)⟩

/-- Membership in the candidate enumeration pins the rotation index, the
shape and the column range. -/
theorem mem_candidates (rots : List Shape) (rsc : Nat × Shape × Nat)
    (h : rsc ∈ candidates rots) :
    rsc.1 < rots.length ∧ rsc.2.1 = rots.getD rsc.1 [] ∧
      rsc.2.2 ∈ colRange rsc.2.1 := by
  unfold candidates at h
  obtain ⟨rs, hrs, hmem⟩ := List.mem_flatMap.mp h
  obtain ⟨c, hc, rfl⟩ := List.mem_map.mp hmem
  obtain ⟨i, shape⟩ := rs
  have hget : rots[i]? = some shape := List.mk_mem_enum_iff_getElem?.mp hrs
  have hlen : i < rots.length := by
    by_contra hge
    push_neg at hge
    rw [List.getElem?_eq_none hge] at hget
    exact Option.noConfusion hget
  refine ⟨hlen, ?_, hc⟩
  rw [List.getD_eq_getElem?_getD, hget]
  rfl

/-- C10: if at least one candidate is feasible, the `(column, rotation)`
pair returned by `best_move` is itself a feasible candidate: the rotation
index is in range, the column is in the rotation's feasible range, and
hard-dropping that rotation at that column yields a placement `valid_move`
accepts. -/
theorem best_move_feasible (grid : Board) (p : Piece) (rots : List Shape)
    (h : ∃ rsc ∈ candidates rots,
      effScore grid (PIECE_TO_IDX p) rsc.2.1 rsc.2.2 ≠ none) :
    (best_move grid p rots).2 < rots.length ∧
    (best_move grid p rots).1 ∈ colRange (rots.getD (best_move grid p rots).2 []) ∧
    ∃ row, hard_drop grid (rots.getD (best_move grid p rots).2 [])
        (best_move grid p rots).1 = some row ∧
      valid_move grid (rots.getD (best_move grid p rots).2 [])
        (((best_move grid p rots).1 : Int), (row : Int)) = true := by
  obtain ⟨rsc0, hr0, hne0⟩ := h
  have hMne : maxScore (scoredCandidates grid (PIECE_TO_IDX p) rots) ≠ ⊥ := by
    intro hM
    have he0 : ((effScore grid (PIECE_TO_IDX p) rsc0.2.1 rsc0.2.2 : WithBot ℚ),
        rsc0.2.2, rsc0.1) ∈ scoredCandidates grid (PIECE_TO_IDX p) rots :=
      List.mem_map.mpr ⟨rsc0, hr0, rfl⟩
    have hle := le_maxScore _ _ he0
    rw [hM] at hle
    exact hne0 (le_bot_iff.mp hle)
  have hlt : ((⊥ : WithBot ℚ), (0:Nat), (0:Nat)).1
      < maxScore (scoredCandidates grid (PIECE_TO_IDX p) rots) :=
    bot_lt_iff_ne_bot.mpr hMne
  obtain ⟨e, hfind, hfold⟩ :=
    foldl_keepBetter_finds (scoredCandidates grid (PIECE_TO_IDX p) rots) _ hlt
  have hb : best_move grid p rots = e.2 := by
    rw [best_move_eq_fold, hfold]
  have hpe := List.find?_some hfind
  have he : e ∈ scoredCandidates grid (PIECE_TO_IDX p) rots :=
    List.mem_of_find?_eq_some hfind
  obtain ⟨rsc, hrsc, hrfl⟩ := List.mem_map.mp he
  have hprops := of_decide_eq_true hpe
  have hne : effScore grid (PIECE_TO_IDX p) rsc.2.1 rsc.2.2 ≠ none := by
    intro hnone
    apply hprops.2
    rw [← hrfl]
    dsimp only
    rw [hnone]
    rfl
  obtain ⟨hlen, hgetD, hcol⟩ := mem_candidates rots rsc hrsc
  have he2 : e.2 = (rsc.2.2, rsc.1) := by
    rw [← hrfl]
  rw [hb, he2]
  dsimp only
  refine ⟨hlen, by rw [← hgetD]; exact hcol, ?_⟩
  rw [← hgetD]
  unfold effScore at hne
  rcases hd : hard_drop grid rsc.2.1 rsc.2.2 with - | row
  · rw [hd] at hne
    dsimp only at hne
    exact absurd rfl hne
  · rw [hd] at hne
    dsimp only at hne
    by_cases hv : valid_move grid rsc.2.1 ((rsc.2.2 : Int), (row : Int)) = true
    · exact ⟨row, rfl, hv⟩
    · rw [if_neg hv] at hne
      exact absurd rfl hne

/-- C10 witness: `best_move_feasible` applied to the empty grid and the I
piece. -/
theorem best_move_feasible_witness :
    (∃ rsc ∈ candidates (ROTATIONS .I),
      effScore create_grid (PIECE_TO_IDX .I) rsc.2.1 rsc.2.2 ≠ none) ∧
    ((best_move create_grid .I (ROTATIONS .I)).2 < (ROTATIONS .I).length ∧
     (best_move create_grid .I (ROTATIONS .I)).1 ∈
       colRange ((ROTATIONS .I).getD (best_move create_grid .I (ROTATIONS .I)).2 []) ∧
     ∃ row, hard_drop create_grid
         ((ROTATIONS .I).getD (best_move create_grid .I (ROTATIONS .I)).2 [])
         (best_move create_grid .I (ROTATIONS .I)).1 = some row ∧
       valid_move create_grid
         ((ROTATIONS .I).getD (best_move create_grid .I (ROTATIONS .I)).2 [])
         (((best_move create_grid .I (ROTATIONS .I)).1 : Int), (row : Int)) = true) :=
  ⟨by decide, best_move_feasible create_grid .I (ROTATIONS .I) (by decide)⟩

/-- The state-passing candidate step returns the live board unchanged and
acts on the search state exactly as the plain step. -/
theorem tryCandidateState_eq (cIdx : Nat) (shape : Shape) (rotIdx col : Nat)
    (stg : SearchState × Board) :
    tryCandidateState cIdx shape rotIdx col stg =
      (tryCandidate stg.2 cIdx shape rotIdx col stg.1, stg.2) := by
  unfold tryCandidateState tryCandidate
  dsimp only
  cases hard_drop stg.2 shape col with
  | none => rfl
  | some row =>
    dsimp only
    by_cases hv : valid_move stg.2 shape ((col : Int), (row : Int)) = true
    · rw [if_pos hv, if_pos hv]
    · rw [if_neg hv, if_neg hv]

/-- The inner column loop threads the live board through unchanged. -/
theorem innerState_eq (cIdx : Nat) (shape : Shape) (rotIdx : Nat) :
    ∀ (cols : List Nat) (st : SearchState) (g : Board),
      cols.foldl (fun stg col => tryCandidateState cIdx shape rotIdx col stg) (st, g) =
        (cols.foldl (fun st col => tryCandidate g cIdx shape rotIdx col st) st, g) := by
  intro cols
  induction cols with
  | nil =>
    intro st g
    rfl
  | cons c t ih =>
    intro st g
    rw [List.foldl_cons, List.foldl_cons, tryCandidateState_eq]
    exact ih _ g

/-- The outer rotation loop threads the live board through unchanged. -/
theorem outerState_eq (cIdx : Nat) :
    ∀ (l : List (Nat × Shape)) (st : SearchState) (g : Board),
      l.foldl (fun stg rs => (colRange rs.2).foldl
          (fun stg col => tryCandidateState cIdx rs.2 rs.1 col stg) stg) (st, g) =
        (l.foldl (fun st rs => (colRange rs.2).foldl
          (fun st col => tryCandidate g cIdx rs.2 rs.1 col st) st) st, g) := by
  intro l
  induction l with
  | nil =>
    intro st g
    rfl
  | cons a t ih =>
    intro st g
    rw [List.foldl_cons, List.foldl_cons, innerState_eq]
    exact ih _ g

/-- C8: the search never mutates the live board it is given — in the
state-passing translation, the board handed back to the caller is exactly
the input board, and the answer is that of `best_move`; every lock, clear
and evaluation acts on the per-candidate copy only. -/
theorem best_move_state_frame (grid : Board) (piece : Piece)
    (rotations : List Shape) :
    best_move_state grid piece rotations = (best_move grid piece rotations, grid) := by
  unfold best_move_state best_move
  dsimp only
  rw [outerState_eq]

end TetrisAI
